import Mathlib

/-!
Shallow embedding of the animation/physics core of `src/app.js`: the easing
library, the confetti particle system, the ambient emoji-rain system and the
rigged wheel-spin controller.

Modelling conventions:
* JavaScript numbers are modelled as rationals (`ℚ`); all arithmetic in the
  embedded code is `+ - * /` on decimal literals, so this is exact.
* Every call to `Math.random()` becomes an explicit draw `u` with the
  contract `0 ≤ u < 1` (`ValidU`); call sites that consume several draws take
  a structure of draws or a stream `ℕ → _` of draws.
* `Math.cos`, `Math.sin` and `Math.PI` are transcendental; they are abstracted
  as parameters (`cosF`, `sinF`, `piQ`).  No claim below depends on their
  values, only on where the source plugs them in.
* DOM rendering (canvas painting, CSS transforms) is not state evolution and
  is omitted; the state mutated by each source function is carried explicitly.
-/

namespace Valentine

/-- Source `clamp(n, min, max) = Math.max(min, Math.min(max, n))` on numbers. -/
def clampQ (n lo hi : ℚ) : ℚ := max lo (min hi n)

/-- The same `clamp` helper applied to integer-valued quantities. -/
def clampZ (n lo hi : ℤ) : ℤ := max lo (min hi n)

/-- JavaScript number truncation toward zero (the rounding used by `%`). -/
def jsTrunc (q : ℚ) : ℤ := if 0 ≤ q then ⌊q⌋ else ⌈q⌉

/-- JavaScript's `%` on numbers: remainder carrying the dividend's sign. -/
def jsMod (x y : ℚ) : ℚ := x - y * jsTrunc (x / y)

/-- Canonical floor-based remainder; used to state `mod 360` properties. -/
def canonMod (x y : ℚ) : ℚ := x - y * ⌊x / y⌋

/-- JavaScript `Math.round`: round half toward positive infinity. -/
def jsRound (x : ℚ) : ℤ := ⌊x + 1 / 2⌋

/-- Source `rand(min, max) = min + Math.random() * (max - min)`;
`u` stands for the `Math.random()` draw. -/
def rand01 (u lo hi : ℚ) : ℚ := lo + u * (hi - lo)

/-- The contract of a `Math.random()` draw. -/
def ValidU (u : ℚ) : Prop := 0 ≤ u ∧ u < 1

/-! ### Easing library -/

/-- Source `easeInCubic`. -/
def easeInCubic (t : ℚ) : ℚ := t * t * t

/-- Source `easeOutCubic`. -/
def easeOutCubic (t : ℚ) : ℚ := 1 - (1 - t) ^ 3

/-- Source `easeInOutCubic`. -/
def easeInOutCubic (t : ℚ) : ℚ :=
  if t < 1 / 2 then 4 * t * t * t else 1 - (-2 * t + 2) ^ 3 / 2

/-- Source `easeOutPower(t, p) = 1 - (1 - t)^p`. -/
def easeOutPower (t : ℚ) (p : ℕ) : ℚ := 1 - (1 - t) ^ p

/-- First branch of `spinProfile` (`t < accelT`): cubic-in scaled to reach
`accelP = 0.12` at `t = accelT = 0.18`. -/
def spinAccelSeg (t : ℚ) : ℚ := 0.12 * easeInCubic (t / 0.18)

/-- Second branch of `spinProfile` (`accelT ≤ t < cruiseT`): linear from
`0.12` to `cruiseP = 0.86`. -/
def spinCruiseSeg (t : ℚ) : ℚ := 0.12 + (0.86 - 0.12) * ((t - 0.18) / (0.72 - 0.18))

/-- Third branch of `spinProfile` (`t ≥ cruiseT = 0.72`): cubic-out from
`0.86` to `1`. -/
def spinDecelSeg (t : ℚ) : ℚ := 0.86 + (1 - 0.86) * easeOutCubic ((t - 0.72) / (1 - 0.72))

/-- Source `spinProfile`: accelerate, cruise, decelerate. -/
def spinProfile (t : ℚ) : ℚ :=
  if t ≤ 0 then 0
  else if 1 ≤ t then 1
  else if t < 0.18 then spinAccelSeg t
  else if t < 0.72 then spinCruiseSeg t
  else spinDecelSeg t

/-! ### Ambient emoji rain -/

/-- Source `rainIcons`. -/
def rainIcons : List String := ["🍫", "🌹", "💗", "🍬", "✨", "💝", "🍓"]

/-- Side affinity of a rain drop. -/
inductive Side where
  | left
  | right
deriving DecidableEq, Repr

/-- A recycled ambient rain drop (source drop objects). -/
structure RainDrop where
  icon : String
  size : ℚ
  side : Side
  x : ℚ
  y : ℚ
  vy : ℚ
  vx : ℚ
  phase : ℚ
  vphase : ℚ
  alpha : ℚ
deriving DecidableEq, Repr

/-- Source `sideBandWidth()`; `W` is `window.innerWidth`. -/
def sideBandWidth (W : ℚ) : ℚ := clampQ (jsRound (W * 0.22) : ℚ) 140 280

/-- Source `sideBounds(side)`: the `[minX, maxX]` band for a side. -/
def sideBounds (W : ℚ) : Side → ℚ × ℚ
  | .right => (max 10 (W - sideBandWidth W + 10), W - 10)
  | .left => (10, max (10 + 1) (sideBandWidth W - 10))

/-- Source `desiredRainCount()`. -/
def desiredRainCount (W : ℚ) : ℤ := clampZ ⌊W / 44⌋ 12 30

/-- The `Math.random()` draws consumed by one `resetDrop` call. -/
structure DropDraws where
  uIcon : ℚ
  uSize : ℚ
  uSide : ℚ
  uX : ℚ
  uY : ℚ
  uVy : ℚ
  uVx : ℚ
  uPhase : ℚ
  uVphase : ℚ
  uAlpha : ℚ
deriving Repr

/-- All draws of a `resetDrop` call obey the `Math.random()` contract. -/
def ValidDropDraws (d : DropDraws) : Prop :=
  ValidU d.uIcon ∧ ValidU d.uSize ∧ ValidU d.uSide ∧ ValidU d.uX ∧ ValidU d.uY ∧
    ValidU d.uVy ∧ ValidU d.uVx ∧ ValidU d.uPhase ∧ ValidU d.uVphase ∧ ValidU d.uAlpha

/-- Source `resetDrop(drop, { startAbove, keepSide })`.  `H` is
`window.innerHeight`, `piQ` abstracts `Math.PI`.  In the source a drop whose
`side` field is not yet `"left"`/`"right"` is also re-sided; in this typed
model `side` is always one of the two, so that case coincides with
`keepSide = false`. -/
def resetDrop (W H piQ : ℚ) (startAbove keepSide : Bool) (d : RainDrop)
    (u : DropDraws) : RainDrop :=
  let side := if keepSide then d.side else if u.uSide < 0.5 then Side.left else Side.right
  let b := sideBounds W side
  { icon := rainIcons.getD (⌊u.uIcon * (rainIcons.length : ℚ)⌋).toNat ""
    size := rand01 u.uSize 18 30
    side := side
    x := rand01 u.uX b.1 b.2
    y := if startAbove then rand01 u.uY (-120) (H * 0.35) else rand01 u.uY 0 H
    vy := rand01 u.uVy 55 140
    vx := rand01 u.uVx (-6) 6
    phase := rand01 u.uPhase 0 (piQ * 2)
    vphase := rand01 u.uVphase 0.8 1.6
    alpha := rand01 u.uAlpha 0.22 0.42 }

/-- The fresh `{}` object pushed by `syncRainDrops` before `resetDrop` fills
every field. -/
def defaultDrop : RainDrop :=
  { icon := "", size := 0, side := .left, x := 0, y := 0, vy := 0, vx := 0,
    phase := 0, vphase := 0, alpha := 0 }

/-- One Fisher-Yates swap `[arr[i], arr[j]] = [arr[j], arr[i]]` on a list. -/
def listSwap {α : Type*} (l : List α) (i j : ℕ) : List α :=
  match l.get? i, l.get? j with
  | some a, some b => (l.set i b).set j a
  | _, _ => l

/-- Source `shuffleInPlace`: for `i = n-1, …, 1` swap index `i` with
`j = ⌊u i * (i+1)⌋` (the `(Math.random() * (i + 1)) | 0` draw). -/
def shuffleInPlace {α : Type*} (u : ℕ → ℚ) (l : List α) : List α :=
  ((List.range l.length).reverse.dropLast).foldl
    (fun acc i => listSwap acc i (⌊u i * ((i : ℚ) + 1)⌋).toNat) l

/-- The side-rebalancing body of `syncRainDrops`: assign `sides[i]` to drop
`i` and redraw `x` into the new side's band when the old `x` is outside it. -/
def fixDropSide (W : ℚ) (u : ℚ) (s : Side) (d : RainDrop) : RainDrop :=
  let b := sideBounds W s
  { d with side := s, x := if d.x < b.1 ∨ d.x > b.2 then rand01 u b.1 b.2 else d.x }

/-- Elementwise side assignment loop of `syncRainDrops` (index `i` feeds the
per-iteration `rand(minX, maxX)` draw `xu i`). -/
def assignSides (W : ℚ) (xu : ℕ → ℚ) : ℕ → List RainDrop → List Side → List RainDrop
  | _, [], _ => []
  | _, ds, [] => ds
  | i, d :: ds, s :: ss => fixDropSide W (xu i) s d :: assignSides W xu (i + 1) ds ss

/-- The `reseed` loop of `syncRainDrops`: `resetDrop(d, { startAbove: true,
keepSide: true })` over the pool. -/
def reseedDrops (W H piQ : ℚ) (rd : ℕ → DropDraws) : ℕ → List RainDrop → List RainDrop
  | _, [] => []
  | i, d :: ds => resetDrop W H piQ true true d (rd i) :: reseedDrops W H piQ rd (i + 1) ds

/-- The grow/shrink phase of `syncRainDrops`: push freshly reset drops while
the pool is below the target, then truncate `rainDrops.length = target`. -/
def syncTargetPool (W H piQ : ℚ) (nd : ℕ → DropDraws) (drops : List RainDrop) : List RainDrop :=
  let target := (desiredRainCount W).toNat
  (drops ++ (List.range (target - drops.length)).map
    (fun k => resetDrop W H piQ true false defaultDrop (nd k))).take target

/-- The shuffled side list built by `syncRainDrops`: `leftWanted = ⌊n/2⌋`
copies of `"left"`, `n - leftWanted` copies of `"right"`, shuffled in place. -/
def balancedSides (su : ℕ → ℚ) (n : ℕ) : List Side :=
  shuffleInPlace su
    (List.replicate (n / 2) Side.left ++ List.replicate (n - n / 2) Side.right)

/-- The balancing phase of `syncRainDrops` (guarded by `rainDrops.length > 0`
in the source): assign the shuffled sides elementwise. -/
def syncBalance (W : ℚ) (su xu : ℕ → ℚ) (pool1 : List RainDrop) : List RainDrop :=
  if 0 < pool1.length then assignSides W xu 0 pool1 (balancedSides su pool1.length)
  else pool1

/-- Source `syncRainDrops({ reseed })`: grow or shrink the pool to the target
count, rebalance sides with a shuffled half-left/half-right assignment, then
optionally reseed every drop in place.  `nd` are the draws for newly created
drops, `su` the shuffle draws, `xu` the out-of-band `x` redraws and `rd` the
reseed draws. -/
def syncRainDrops (W H piQ : ℚ) (enabled reseed : Bool) (nd : ℕ → DropDraws)
    (su xu : ℕ → ℚ) (rd : ℕ → DropDraws) (drops : List RainDrop) : List RainDrop :=
  if !enabled then drops
  else if reseed then
    reseedDrops W H piQ rd 0 (syncBalance W su xu (syncTargetPool W H piQ nd drops))
  else syncBalance W su xu (syncTargetPool W H piQ nd drops)

/-- Number of drops currently assigned to the left band. -/
def leftCount (pool : List RainDrop) : ℕ := (pool.map RainDrop.side).count Side.left

/-- Number of drops currently assigned to the right band. -/
def rightCount (pool : List RainDrop) : ℕ := (pool.map RainDrop.side).count Side.right

/-- The integration part of the rain `advance` step of `renderFxFrame`:
`y += vy*dt; x += vx*dt; phase += vphase*dt`. -/
def fallDrop (dt : ℚ) (d : RainDrop) : RainDrop :=
  { d with y := d.y + d.vy * dt, x := d.x + d.vx * dt, phase := d.phase + d.vphase * dt }

/-- The band bounce of the rain `advance` step: clamp `x` to the side band
and flip the horizontal velocity's sign at each edge. -/
def bounceDrop (W : ℚ) (d : RainDrop) : RainDrop :=
  let b := sideBounds W d.side
  let d2 := if d.x < b.1 then { d with x := b.1, vx := |d.vx| } else d
  if d2.x > b.2 then { d2 with x := b.2, vx := -|d2.vx| } else d2

/-- The per-drop `advance` step of `renderFxFrame` (rain layer, with
`advance = true`): integrate fall and sway by `dt`, bounce at the band edges,
and recycle the drop (`resetDrop` keeping its side) once it falls past the
bottom margin. -/
def advanceDrop (W H piQ dt : ℚ) (rd : DropDraws) (d : RainDrop) : RainDrop :=
  let d3 := bounceDrop W (fallDrop dt d)
  if d3.y > H + 36 then resetDrop W H piQ true true d3 rd else d3

/-- Iterated rain advance over a list of `(dt, recycle draws)` frames. -/
def runRain (W H piQ : ℚ) (steps : List (ℚ × DropDraws)) (d : RainDrop) : RainDrop :=
  steps.foldl (fun d s => advanceDrop W H piQ s.1 s.2 d) d

/-! ### Confetti particle system -/

/-- Shape kind of a confetti particle. -/
inductive ParticleKind where
  | rect
  | heart
deriving DecidableEq, Repr

/-- A confetti particle (source objects pushed by `spawnConfetti`). -/
structure Particle where
  kind : ParticleKind
  x : ℚ
  y : ℚ
  vx : ℚ
  vy : ℚ
  g : ℚ
  r : ℚ
  rot : ℚ
  vr : ℚ
  a : ℚ
  va : ℚ
  color : String
deriving DecidableEq, Repr

/-- Source `palette` inside `spawnConfetti`. -/
def palette : List String := ["#E63946", "#FF7FA3", "#FFD9A6", "#FFFFFF"]

/-- The `Math.random()` draws consumed for one spawned particle. -/
structure BurstDraws where
  uKind : ℚ
  uAng : ℚ
  uSpd : ℚ
  uR : ℚ
  uRot : ℚ
  uVr : ℚ
  uVa : ℚ
  uColor : ℚ
deriving Repr

/-- All draws of one particle obey the `Math.random()` contract. -/
def ValidBurstDraws (d : BurstDraws) : Prop :=
  ValidU d.uKind ∧ ValidU d.uAng ∧ ValidU d.uSpd ∧ ValidU d.uR ∧ ValidU d.uRot ∧
    ValidU d.uVr ∧ ValidU d.uVa ∧ ValidU d.uColor

/-- The particle object built by one iteration of the `spawnConfetti` loop. -/
def mkParticle (cosF sinF : ℚ → ℚ) (piQ x y spread : ℚ) (d : BurstDraws) : Particle :=
  let ang := d.uAng * piQ * 2
  let spd := (1.2 + d.uSpd * 4.0) * spread
  { kind := if d.uKind < 0.18 then .heart else .rect
    x := x
    y := y
    vx := cosF ang * spd
    vy := sinF ang * spd - 2.0 * spread
    g := 0.12 * spread
    r := 2 + d.uR * 4
    rot := d.uRot * piQ * 2
    vr := (-0.12 + d.uVr * 0.24) * spread
    a := 1
    va := 0.012 + d.uVa * 0.02
    color := palette.getD (⌊d.uColor * (palette.length : ℚ)⌋).toNat "" }

/-- The list of particles created by the `spawnConfetti` loop. -/
def burstParticles (cosF sinF : ℚ → ℚ) (piQ x y : ℚ) (count : ℕ) (spread : ℚ)
    (draws : ℕ → BurstDraws) : List Particle :=
  (List.range count).map fun i => mkParticle cosF sinF piQ x y spread (draws i)

/-- Source `spawnConfetti({x, y, count, spread})`.  `hasCtx` models the
presence of the canvas 2d context `fxCtx`, `prm` the startup-sampled
`prefersReducedMotion` flag; the source returns early (a no-op on the pool)
when `!fxCtx || prefersReducedMotion`. -/
def spawnConfetti (hasCtx prm : Bool) (cosF sinF : ℚ → ℚ) (piQ x y : ℚ)
    (count : ℕ) (spread : ℚ) (draws : ℕ → BurstDraws)
    (pool : List Particle) : List Particle :=
  if !hasCtx || prm then pool
  else pool ++ burstParticles cosF sinF piQ x y count spread draws

/-- The per-particle update of `renderFxFrame`: `vy += g; x += vx; y += vy;
rot += vr; a = max(0, a - va)`.  Note the source applies no `dt` scaling
here. -/
def stepParticle (p : Particle) : Particle :=
  let vy := p.vy + p.g
  { p with vy := vy, x := p.x + p.vx, y := p.y + vy,
           rot := p.rot + p.vr, a := max 0 (p.a - p.va) }

/-- The `splice` pruning of `renderFxFrame`: drop every particle with
`a ≤ 0` or `y > innerHeight + 120` (iterating from the end, so equivalent to
a filter). -/
def pruneParticles (H : ℚ) : List Particle → List Particle
  | [] => []
  | p :: ps => if p.a ≤ 0 ∨ p.y > H + 120 then pruneParticles H ps
               else p :: pruneParticles H ps

/-- The particle part of `renderFxFrame(dt, true)`: update every particle,
then prune expired ones.  The frame delta `dt` is received (it is computed
and passed by `fxTick`) but the particle update does not use it. -/
def advanceParticles (H : ℚ) (dt : ℚ) (pool : List Particle) : List Particle :=
  pruneParticles H (pool.map stepParticle)

/-- Iterated particle advance over a list of frame deltas. -/
def runParticles (H : ℚ) (dts : List ℚ) (pool : List Particle) : List Particle :=
  dts.foldl (fun pl dt => advanceParticles H dt pl) pool

/-! ### Rigged wheel-spin controller -/

/-- Source `sectorCount = 5`. -/
def sectorCount : ℕ := 5

/-- Source `sectorSize = 360 / sectorCount = 72`. -/
def sectorSize : ℚ := 360 / (sectorCount : ℚ)

/-- Source `prizeIndex = 2` (the permanently winning sector). -/
def prizeIndex : ℕ := 2

/-- Source `sectorCenterAngle(index)`. -/
def sectorCenterAngle (i : ℕ) : ℚ := (i : ℚ) * sectorSize + sectorSize / 2

/-- Source `computeRiggedStopAngle()`; `u` is its `Math.random()` draw. -/
def computeRiggedStopAngle (u : ℚ) : ℚ :=
  let center := sectorCenterAngle prizeIndex
  let within := u * (sectorSize * 0.6) - sectorSize * 0.3
  jsMod (360 - (center + within) + 360) 360

/-- The two draws of one spin request: the stop-angle jitter and the
`extraSpins` draw. -/
structure SpinDraws where
  uJitter : ℚ
  uSpins : ℚ
deriving Repr

/-- The wheel-spin controller state touched synchronously by the `spinBtn`
click handler: current rotation, the `spinning` re-entrancy flag, the
disabled state of the button, and the target angle of the active session
(`none` when idle). -/
structure SpinState where
  wheelRotation : ℚ
  spinning : Bool
  spinBtnDisabled : Bool
  targetAngle : Option ℚ
deriving DecidableEq, Repr

/-- The synchronous prefix of the `spinBtn` click handler (everything it does
before the first `await`): the re-entrancy guard and the rigged target-angle
computation.  A second click that arrives while a session is in flight runs
this same function against the updated state. -/
def startSpin (d : SpinDraws) (s : SpinState) : SpinState :=
  if s.spinning then s
  else
    let finalOffset := computeRiggedStopAngle d.uJitter
    let extraSpins : ℤ := 7 + ⌊d.uSpins * 3⌋
    let currentMod := jsMod (jsMod s.wheelRotation 360 + 360) 360
    let deltaToOffset := jsMod (finalOffset - currentMod + 360) 360
    { wheelRotation := s.wheelRotation
      spinning := true
      spinBtnDisabled := true
      targetAngle := some (s.wheelRotation + (extraSpins : ℚ) * 360 + deltaToOffset) }

/-- Sector shown under the fixed top pointer at a given wheel rotation, per
the source comment in `computeRiggedStopAngle`: sector `i` occupies wheel
coordinates `[i * sectorSize, (i+1) * sectorSize)` and the pointer reads wheel
coordinate `(0 - rotation) mod 360`. -/
def pointerSector (rotation : ℚ) : ℤ := ⌊canonMod (0 - rotation) 360 / sectorSize⌋

/-- Source `playTickIfCrossed`'s sector index of an angle:
`Math.floor((((deg % 360) + 360) % 360) / sectorSize)`. -/
def sectorIndexOf (deg : ℚ) : ℤ := ⌊jsMod (jsMod deg 360 + 360) 360 / sectorSize⌋

/-- Source `clickSound(freq, …)` as an event list: it returns without playing
anything when `prefersReducedMotion` holds. -/
def clickSoundEvents (prm : Bool) (freq : ℚ) : List ℚ := if prm then [] else [freq]

/-- Source `playTickIfCrossed(prevDeg, nextDeg)` as an event list. -/
def playTickIfCrossed (prm : Bool) (prevDeg nextDeg : ℚ) : List ℚ :=
  if sectorIndexOf prevDeg ≠ sectorIndexOf nextDeg then clickSoundEvents prm 980 else []

/-- One frame of `animateWheelToWithEasing`'s `step` callback: the wheel angle
at host timestamp `now`. -/
def animStepDeg (prm : Bool) (ease : ℚ → ℚ) (fromDeg toDeg startT dur now : ℚ) : ℚ :=
  let t := clampQ ((now - startT) / dur) 0 1
  let eased := if prm then t else ease t
  fromDeg + (toDeg - fromDeg) * eased

/-- The frame loop of `animateWheelToWithEasing`, accumulating the tick-sound
events; `prev` starts at `from = wheelRotation` and each frame runs
`if (!prefersReducedMotion) playTickIfCrossed(prev, deg)`. -/
def animateWheelAux (prm : Bool) (ease : ℚ → ℚ) (fromDeg toDeg startT dur : ℚ) :
    List ℚ → List ℚ × ℚ → List ℚ × ℚ
  | [], acc => acc
  | now :: rest, (events, prev) =>
    let deg := animStepDeg prm ease fromDeg toDeg startT dur now
    let events' := events ++ (if prm then [] else playTickIfCrossed prm prev deg)
    animateWheelAux prm ease fromDeg toDeg startT dur rest (events', deg)

/-- All tick-sound events emitted by one `animateWheelToWithEasing` animation
over a given list of frame timestamps. -/
def animateWheelEvents (prm : Bool) (ease : ℚ → ℚ) (fromDeg toDeg startT dur : ℚ)
    (frames : List ℚ) : List ℚ :=
  (animateWheelAux prm ease fromDeg toDeg startT dur frames ([], fromDeg)).1

/-! ### Auxiliary definitions used to state the claims and their witnesses -/

/-- The spec's `clamp(x, lo, hi)` notation on integers, written from the
spec's words (saturate below at `lo`, above at `hi`); compared against the
source `clamp` shape in the claims about the rain-pool formulas. -/
def specClampZ (x lo hi : ℤ) : ℤ := if x < lo then lo else if hi < x then hi else x

/-- The spec's `clamp(x, lo, hi)` notation on numbers, written from the
spec's words; compared against the source `clamp` shape. -/
def specClampQ (x lo hi : ℚ) : ℚ := if x < lo then lo else if hi < x then hi else x

/-- An idle wheel controller state (page load: rotation 0, no session). -/
def idleSpinState : SpinState :=
  { wheelRotation := 0, spinning := false, spinBtnDisabled := false, targetAngle := none }

/-- Concrete particle used to exhibit that the particle update is per-frame:
unit gravity, no drift, slow fade. -/
def cxParticle : Particle :=
  { kind := .rect, x := 0, y := 0, vx := 0, vy := 0, g := 1, r := 2, rot := 0,
    vr := 0, a := 1, va := 0.01, color := "#FFFFFF" }

/-- Concrete particle used in witnesses: fades by one half per frame. -/
def wParticle : Particle :=
  { kind := .heart, x := 0, y := 0, vx := 0, vy := 0, g := 0, r := 2, rot := 0,
    vr := 0, a := 1, va := 0.5, color := "#E63946" }

/-- Concrete all-zero draw record for a `resetDrop` call (a valid draw). -/
def zeroDropDraws : DropDraws := ⟨0, 0, 0, 0, 0, 0, 0, 0, 0, 0⟩

/-- Concrete all-zero draw record for a spawned particle (a valid draw). -/
def zeroBurstDraws : BurstDraws := ⟨0, 0, 0, 0, 0, 0, 0, 0⟩

/-- Concrete left-band rain drop used in witnesses (at width 1000 the left
band is `[10, 210]`, so `x = 50` is inside it). -/
def wDrop : RainDrop :=
  { icon := "", size := 20, side := .left, x := 50, y := 0, vy := 60, vx := 2,
    phase := 0, vphase := 1, alpha := 0.3 }

/-! ## Arithmetic facts about the JavaScript operators -/

theorem jsTrunc_of_nonneg (q : ℚ) (h : 0 ≤ q) : jsTrunc q = ⌊q⌋ := if_pos h

theorem jsMod_of_nonneg (x y : ℚ) (hx : 0 ≤ x) (hy : 0 < y) : jsMod x y = canonMod x y := by
  unfold jsMod canonMod
  rw [jsTrunc_of_nonneg (x / y) (div_nonneg hx hy.le)]

theorem canonMod_eq_mul_fract (x y : ℚ) (hy : y ≠ 0) :
    canonMod x y = y * Int.fract (x / y) := by
  unfold canonMod Int.fract
  rw [mul_sub, mul_comm y (x / y), div_mul_cancel₀ _ hy]

theorem canonMod_nonneg (x y : ℚ) (hy : 0 < y) : 0 ≤ canonMod x y := by
  rw [canonMod_eq_mul_fract x y hy.ne']
  exact mul_nonneg hy.le (Int.fract_nonneg _)

theorem canonMod_lt (x y : ℚ) (hy : 0 < y) : canonMod x y < y := by
  rw [canonMod_eq_mul_fract x y hy.ne']
  calc y * Int.fract (x / y) < y * 1 := by
        exact mul_lt_mul_of_pos_left (Int.fract_lt_one _) hy
    _ = y := mul_one y

theorem canonMod_add_int_mul (x y : ℚ) (n : ℤ) (hy : y ≠ 0) :
    canonMod (x + (n : ℚ) * y) y = canonMod x y := by
  unfold canonMod
  have h : (x + (n : ℚ) * y) / y = x / y + (n : ℚ) := by field_simp
  rw [h, Int.floor_add_int]
  push_cast
  ring

theorem canonMod_eq_self (x y : ℚ) (hx : 0 ≤ x) (hxy : x < y) : canonMod x y = x := by
  have hy : 0 < y := lt_of_le_of_lt hx hxy
  unfold canonMod
  have h0 : ⌊x / y⌋ = 0 := by
    rw [Int.floor_eq_zero_iff]
    exact ⟨div_nonneg hx hy.le, (div_lt_one hy).mpr hxy⟩
  rw [h0]
  push_cast
  ring

theorem canonMod_neg (x y : ℚ) (h0 : 0 < x) (hxy : x < y) : canonMod (-x) y = y - x := by
  have hy : 0 < y := h0.trans hxy
  unfold canonMod
  have hfl : ⌊-x / y⌋ = -1 := by
    rw [Int.floor_eq_iff]
    push_cast
    constructor
    · rw [le_div_iff₀ hy]; linarith
    · rw [div_lt_iff₀ hy]; linarith
  rw [hfl]
  push_cast
  ring

theorem jsMod_sub_int (x y : ℚ) : ∃ k : ℤ, jsMod x y = x - y * (k : ℚ) :=
  ⟨jsTrunc (x / y), rfl⟩

theorem jsMod_bounds (x y : ℚ) (hy : 0 < y) : -y < jsMod x y ∧ jsMod x y < y := by
  rcases le_or_lt 0 x with hx | hx
  · rw [jsMod_of_nonneg x y hx hy]
    refine ⟨lt_of_lt_of_le ?_ (canonMod_nonneg x y hy), canonMod_lt x y hy⟩
    linarith
  · have hq : ¬ 0 ≤ x / y := by
      rw [not_le]
      exact div_neg_of_neg_of_pos hx hy
    unfold jsMod jsTrunc
    rw [if_neg hq]
    have hc1 : x / y ≤ (⌈x / y⌉ : ℚ) := Int.le_ceil _
    have hc2 : (⌈x / y⌉ : ℚ) < x / y + 1 := Int.ceil_lt_add_one _
    have hxy : y * (x / y) = x := by field_simp
    constructor
    · nlinarith
    · nlinarith

theorem jsMod_in_second_period (x y : ℚ) (hy : 0 < y) (h1 : y ≤ x) (h2 : x < 2 * y) :
    jsMod x y = x - y := by
  rw [jsMod_of_nonneg x y (hy.le.trans h1) hy]
  unfold canonMod
  have hfl : ⌊x / y⌋ = 1 := by
    rw [Int.floor_eq_iff]
    push_cast
    constructor
    · exact (one_le_div hy).mpr h1
    · rw [div_lt_iff₀ hy]; linarith
  rw [hfl]
  push_cast
  ring

theorem clampZ_eq_spec (n lo hi : ℤ) (h : lo ≤ hi) : clampZ n lo hi = specClampZ n lo hi := by
  simp only [clampZ, specClampZ]
  split_ifs <;> omega

theorem clampQ_eq_spec (n lo hi : ℚ) (h : lo ≤ hi) : clampQ n lo hi = specClampQ n lo hi := by
  simp only [clampQ, specClampQ]
  split_ifs with h1 h2
  · rw [min_eq_right (by linarith), max_eq_left (by linarith)]
  · rw [min_eq_left (by linarith), max_eq_right (by linarith)]
  · rw [min_eq_right (by linarith), max_eq_right (by linarith)]

/-! ## C4: spin easing profile boundary values and continuity -/

/-- C4: the spin easing profile satisfies `spinProfile 0 = 0`,
`spinProfile 0.18 = 0.12`, `spinProfile 0.72 = 0.86`, `spinProfile 1 = 1`,
and at each segment boundary the adjacent piecewise segments agree with the
profile's value, so there is no progress discontinuity at `t = 0.18` or
`t = 0.72`. -/
theorem spinProfile_boundary_values :
    spinProfile 0 = 0 ∧ spinProfile 0.18 = 0.12 ∧ spinProfile 0.72 = 0.86 ∧
      spinProfile 1 = 1 ∧
      spinAccelSeg 0.18 = spinProfile 0.18 ∧ spinCruiseSeg 0.18 = spinProfile 0.18 ∧
      spinCruiseSeg 0.72 = spinProfile 0.72 ∧ spinDecelSeg 0.72 = spinProfile 0.72 := by
  norm_num [spinProfile, spinAccelSeg, spinCruiseSeg, spinDecelSeg, easeInCubic, easeOutCubic]

/-! ## C8: spin re-entrancy -/

/-- C8: calling `startSpin` while a session is active is a no-op — two calls
in immediate succession leave exactly the state produced by the first call
(which sets the `spinning` flag when starting from an idle state), with no
new target angle and no other state change. -/
theorem startSpin_reentrancy_noop (s : SpinState) (d1 d2 : SpinDraws) :
    startSpin d2 (startSpin d1 s) = startSpin d1 s ∧
      (s.spinning = false → (startSpin d1 s).spinning = true) := by
  constructor
  · by_cases h : s.spinning = true
    · simp [startSpin, h]
    · simp [startSpin, h]
  · intro h
    simp [startSpin, h]

theorem startSpin_reentrancy_noop_witness :
    startSpin ⟨0, 0⟩ (startSpin ⟨1/2, 1/2⟩ idleSpinState) = startSpin ⟨1/2, 1/2⟩ idleSpinState ∧
      (startSpin ⟨1/2, 1/2⟩ idleSpinState).spinning = true :=
  ⟨(startSpin_reentrancy_noop idleSpinState ⟨1/2, 1/2⟩ ⟨0, 0⟩).1,
    (startSpin_reentrancy_noop idleSpinState ⟨1/2, 1/2⟩ ⟨0, 0⟩).2 rfl⟩

/-! ## C10: reduced motion emits no sector-crossing ticks -/

theorem animateWheelAux_reduced_motion (ease : ℚ → ℚ) (fromDeg toDeg startT dur : ℚ) :
    ∀ (frames : List ℚ) (events : List ℚ) (prev : ℚ),
      (animateWheelAux true ease fromDeg toDeg startT dur frames (events, prev)).1 = events := by
  intro frames
  induction frames with
  | nil => intro events prev; rfl
  | cons now rest ih =>
    intro events prev
    simpa [animateWheelAux] using ih events _

/-- C10: when the host signals a reduced-motion preference, a spin session's
animation loop emits no sector boundary-crossing tick over any sequence of
frames — the crossing check is skipped entirely. -/
theorem reduced_motion_emits_no_ticks (ease : ℚ → ℚ) (fromDeg toDeg startT dur : ℚ)
    (frames : List ℚ) :
    animateWheelEvents true ease fromDeg toDeg startT dur frames = [] := by
  unfold animateWheelEvents
  exact animateWheelAux_reduced_motion ease fromDeg toDeg startT dur frames [] fromDeg

/-! ## C2: the particle update is per-frame, not `dt`-scaled -/

/-- C2 counterexample: two frame schedules with the same total elapsed time
(one frame of 20ms versus two frames of 10ms) leave the same single particle
in different states, so the particle state is not determined by elapsed time
alone. -/
theorem particle_advance_not_time_determined_cx :
    ([0.02] : List ℚ).sum = ([0.01, 0.01] : List ℚ).sum ∧
      runParticles 600 [0.02] [cxParticle] ≠ runParticles 600 [0.01, 0.01] [cxParticle] := by
  constructor
  · norm_num
  · have h1 : runParticles 600 [0.02] [cxParticle] =
        [{ cxParticle with vy := 1, y := 1, a := 0.99 }] := by
      norm_num [runParticles, advanceParticles, pruneParticles, stepParticle, cxParticle,
        max_def]
    have h2 : runParticles 600 [0.01, 0.01] [cxParticle] =
        [{ cxParticle with vy := 2, y := 3, a := 0.98 }] := by
      norm_num [runParticles, advanceParticles, pruneParticles, stepParticle, cxParticle,
        max_def]
    rw [h1, h2]
    intro h
    have hy := congrArg (fun l => (l.map Particle.y).sum) h
    norm_num [cxParticle] at hy

/-- C2 amended: `advance(dt)` integrates every particle's physics by one
fixed frame step independent of `dt` (velocity accumulates gravity once per
frame, position integrates the updated velocity once per frame, rotation
integrates angular velocity once per frame, opacity decays by its rate once
per frame, floored at 0), so the resulting particle state is determined by
the number of frames processed rather than by the elapsed time. -/
theorem particle_advance_frame_based (H dt₁ dt₂ : ℚ) (pool : List Particle) :
    advanceParticles H dt₁ pool = advanceParticles H dt₂ pool ∧
      ∀ p : Particle,
        (stepParticle p).vy = p.vy + p.g ∧
        (stepParticle p).x = p.x + p.vx ∧
        (stepParticle p).y = p.y + (p.vy + p.g) ∧
        (stepParticle p).rot = p.rot + p.vr ∧
        (stepParticle p).a = max 0 (p.a - p.va) :=
  ⟨rfl, fun _ => ⟨rfl, rfl, rfl, rfl, rfl⟩⟩

/-! ## C3: spawnConfetti -/

theorem mkParticle_color_mem (cosF sinF : ℚ → ℚ) (piQ x y spread : ℚ) (d : BurstDraws)
    (h : ValidU d.uColor) :
    (mkParticle cosF sinF piQ x y spread d).color ∈ palette := by
  have hlen : palette.length = 4 := rfl
  have h4 : (palette.length : ℚ) = 4 := by rw [hlen]; norm_num
  have hflt : ⌊d.uColor * (palette.length : ℚ)⌋ < 4 := by
    rw [Int.floor_lt]
    have hu4 : d.uColor * (palette.length : ℚ) < 4 := by
      rw [h4]; nlinarith [h.1, h.2]
    exact_mod_cast hu4
  have hfl : (⌊d.uColor * (palette.length : ℚ)⌋).toNat < palette.length := by
    have h4n : palette.length = 4 := rfl
    omega
  show palette.getD (⌊d.uColor * (palette.length : ℚ)⌋).toNat "" ∈ palette
  rw [List.getD_eq_getElem palette "" hfl]
  exact List.getElem_mem hfl

/-- C3: with a rendering surface and no reduced-motion preference,
`spawnConfetti` appends exactly `count` particles to the pool, each placed at
the burst origin with gravity `0.12 * spread`, full opacity, a color from the
fixed palette, and heart shape exactly when its shape draw is below `0.18`;
under a reduced-motion preference the call leaves the pool unchanged. -/
theorem spawnConfetti_spec (cosF sinF : ℚ → ℚ) (piQ x y spread : ℚ) (count : ℕ)
    (draws : ℕ → BurstDraws) (pool : List Particle)
    (hv : ∀ i, ValidBurstDraws (draws i)) :
    spawnConfetti true false cosF sinF piQ x y count spread draws pool =
        pool ++ burstParticles cosF sinF piQ x y count spread draws ∧
      (spawnConfetti true false cosF sinF piQ x y count spread draws pool).length =
        pool.length + count ∧
      (∀ p ∈ burstParticles cosF sinF piQ x y count spread draws,
        p.x = x ∧ p.y = y ∧ p.g = 0.12 * spread ∧ p.a = 1 ∧ p.color ∈ palette) ∧
      (∀ i : ℕ, (mkParticle cosF sinF piQ x y spread (draws i)).kind = ParticleKind.heart
        ↔ (draws i).uKind < 0.18) ∧
      (∀ (hasCtx : Bool) (pool' : List Particle),
        spawnConfetti hasCtx true cosF sinF piQ x y count spread draws pool' = pool') := by
  refine ⟨?_, ?_, ?_, ?_, ?_⟩
  · simp [spawnConfetti]
  · simp [spawnConfetti, burstParticles]
  · intro p hp
    simp only [burstParticles, List.mem_map, List.mem_range] at hp
    obtain ⟨i, _, rfl⟩ := hp
    exact ⟨rfl, rfl, rfl, rfl,
      mkParticle_color_mem cosF sinF piQ x y spread (draws i) (hv i).2.2.2.2.2.2.2⟩
  · intro i
    by_cases h : (draws i).uKind < 0.18
    · simp [mkParticle, h]
    · simp [mkParticle, h]
  · intro hasCtx pool'
    simp [spawnConfetti]

theorem spawnConfetti_spec_witness :
    ValidBurstDraws zeroBurstDraws ∧
      (spawnConfetti true false (fun _ => 1) (fun _ => 0) 3 5 6 2 3.6
          (fun _ => zeroBurstDraws) []).length = ([] : List Particle).length + 2 :=
  ⟨by norm_num [ValidBurstDraws, zeroBurstDraws, ValidU],
    (spawnConfetti_spec (fun _ => 1) (fun _ => 0) 3 5 6 3.6 2 (fun _ => zeroBurstDraws) []
      (fun _ => by norm_num [ValidBurstDraws, zeroBurstDraws, ValidU])).2.1⟩

/-! ## C9: opacity floor and pool drain -/

theorem mem_pruneParticles (H : ℚ) :
    ∀ {l : List Particle} {p : Particle}, p ∈ pruneParticles H l → p ∈ l := by
  intro l
  induction l with
  | nil => intro p h; simp [pruneParticles] at h
  | cons q t ih =>
    intro p h
    by_cases hc : q.a ≤ 0 ∨ q.y > H + 120
    · simp only [pruneParticles] at h
      rw [if_pos hc] at h
      exact List.mem_cons_of_mem _ (ih h)
    · simp only [pruneParticles] at h
      rw [if_neg hc] at h
      rcases List.mem_cons.mp h with h | h
      · exact h ▸ List.mem_cons_self _ _
      · exact List.mem_cons_of_mem _ (ih h)

theorem pruneParticles_eq_nil (H : ℚ) :
    ∀ (l : List Particle), (∀ p ∈ l, p.a ≤ 0) → pruneParticles H l = [] := by
  intro l
  induction l with
  | nil => intro _; rfl
  | cons q t ih =>
    intro h
    have hq : q.a ≤ 0 := h q (List.mem_cons_self _ _)
    simp only [pruneParticles]
    rw [if_pos (Or.inl hq)]
    exact ih (fun p hp => h p (List.mem_cons_of_mem _ hp))

theorem advanceParticles_mem_shape (H dt : ℚ) (pool : List Particle) (p : Particle)
    (hp : p ∈ advanceParticles H dt pool) : ∃ q ∈ pool, p = stepParticle q := by
  have hp' : p ∈ pruneParticles H (pool.map stepParticle) := hp
  have hm := mem_pruneParticles H hp'
  simp only [List.mem_map] at hm
  obtain ⟨q, hq, rfl⟩ := hm
  exact ⟨q, hq, rfl⟩

theorem stepParticle_a_nonneg (p : Particle) : 0 ≤ (stepParticle p).a :=
  le_max_left 0 _

theorem advanceParticles_drain (H dt : ℚ) :
    ∀ (n : ℕ) (pool : List Particle),
      (∀ p ∈ pool, 0 < p.va ∧ p.a ≤ ((n : ℚ) + 1) * p.va) →
      (advanceParticles H dt)^[n + 1] pool = [] := by
  intro n
  induction n with
  | zero =>
    intro pool h
    rw [Function.iterate_one]
    show pruneParticles H (pool.map stepParticle) = []
    apply pruneParticles_eq_nil
    intro p hp
    simp only [List.mem_map] at hp
    obtain ⟨q, hq, rfl⟩ := hp
    obtain ⟨hva, ha⟩ := h q hq
    have hle : q.a - q.va ≤ 0 := by push_cast at ha; linarith
    calc (stepParticle q).a = max 0 (q.a - q.va) := rfl
      _ = 0 := max_eq_left hle
      _ ≤ 0 := le_refl 0
  | succ n ih =>
    intro pool h
    rw [Function.iterate_succ_apply]
    apply ih
    intro p hp
    obtain ⟨q, hq, rfl⟩ := advanceParticles_mem_shape H dt pool p hp
    obtain ⟨hva, ha⟩ := h q hq
    refine ⟨hva, ?_⟩
    have hstep : (stepParticle q).a = max 0 (q.a - q.va) := rfl
    have hva' : (stepParticle q).va = q.va := rfl
    rw [hstep, hva']
    apply max_le
    · have : (0:ℚ) ≤ (n : ℚ) + 1 := by positivity
      exact mul_nonneg this hva.le
    · push_cast at ha ⊢
      linarith

theorem exists_va_bound :
    ∀ (pool : List Particle), (∀ p ∈ pool, 0 < p.va) →
      ∃ n : ℕ, ∀ p ∈ pool, p.a ≤ ((n : ℚ) + 1) * p.va := by
  intro pool
  induction pool with
  | nil => intro _; exact ⟨0, fun p hp => absurd hp (List.not_mem_nil p)⟩
  | cons q t ih =>
    intro h
    obtain ⟨n, hn⟩ := ih (fun p hp => h p (List.mem_cons_of_mem _ hp))
    have hq : 0 < q.va := h q (List.mem_cons_self _ _)
    refine ⟨max n ⌈q.a / q.va⌉.toNat, ?_⟩
    intro p hp
    rcases List.mem_cons.mp hp with rfl | hp'
    · have h1 : p.a / p.va ≤ (⌈p.a / p.va⌉.toNat : ℚ) := by
        calc p.a / p.va ≤ ((⌈p.a / p.va⌉ : ℤ) : ℚ) := Int.le_ceil _
          _ ≤ ((⌈p.a / p.va⌉.toNat : ℤ) : ℚ) := by exact_mod_cast Int.self_le_toNat _
          _ = (⌈p.a / p.va⌉.toNat : ℚ) := by push_cast; rfl
      have h2 : (⌈p.a / p.va⌉.toNat : ℚ) ≤ ((max n ⌈p.a / p.va⌉.toNat : ℕ) : ℚ) := by
        exact_mod_cast le_max_right n _
      have h3 : p.a / p.va ≤ ((max n ⌈p.a / p.va⌉.toNat : ℕ) : ℚ) + 1 := by linarith
      calc p.a = (p.a / p.va) * p.va := by field_simp
        _ ≤ (((max n ⌈p.a / p.va⌉.toNat : ℕ) : ℚ) + 1) * p.va :=
            mul_le_mul_of_nonneg_right h3 hq.le
    · have hb := hn p hp'
      have hpva : 0 < p.va := h p (List.mem_cons_of_mem _ hp')
      have hcast : ((n : ℚ) + 1) ≤ ((max n ⌈q.a / q.va⌉.toNat : ℕ) : ℚ) + 1 := by
        have hmax : (n : ℚ) ≤ ((max n ⌈q.a / q.va⌉.toNat : ℕ) : ℚ) := by
          exact_mod_cast le_max_left n _
        linarith
      calc p.a ≤ ((n : ℚ) + 1) * p.va := hb
        _ ≤ (((max n ⌈q.a / q.va⌉.toNat : ℕ) : ℚ) + 1) * p.va :=
            mul_le_mul_of_nonneg_right hcast hpva.le

/-- C9: no particle retained after an advance has negative opacity (the
update floors opacity at 0), and once every particle's opacity would fall
below 0 — i.e. for any pool whose particles all have positive decay rates —
enough advance calls empty the pool (particles are pruned when opacity
reaches 0 or they fall past the bottom margin). -/
theorem particle_opacity_floor_and_pool_drain :
    (∀ (H dt : ℚ) (pool : List Particle) (p : Particle),
        p ∈ advanceParticles H dt pool → 0 ≤ p.a) ∧
      (∀ (H dt : ℚ) (pool : List Particle),
        (∀ p ∈ pool, 0 < p.va) →
        ∃ n : ℕ, (advanceParticles H dt)^[n] pool = []) := by
  constructor
  · intro H dt pool p hp
    obtain ⟨q, _, rfl⟩ := advanceParticles_mem_shape H dt pool p hp
    exact stepParticle_a_nonneg q
  · intro H dt pool h
    obtain ⟨n, hn⟩ := exists_va_bound pool h
    exact ⟨n + 1, advanceParticles_drain H dt n pool (fun p hp => ⟨h p hp, hn p hp⟩)⟩

theorem particle_opacity_floor_and_pool_drain_witness :
    (stepParticle wParticle ∈ advanceParticles 600 0.016 [wParticle] ∧
        0 ≤ (stepParticle wParticle).a) ∧
      ((0:ℚ) < wParticle.va ∧
        ∃ n : ℕ, (advanceParticles 600 0.016)^[n] [wParticle] = []) := by
  have hmem : stepParticle wParticle ∈ advanceParticles 600 0.016 [wParticle] := by
    norm_num [advanceParticles, pruneParticles, stepParticle, wParticle, max_def]
  refine ⟨⟨hmem, particle_opacity_floor_and_pool_drain.1 600 0.016 [wParticle] _ hmem⟩,
    by norm_num [wParticle], particle_opacity_floor_and_pool_drain.2 600 0.016 [wParticle] ?_⟩
  intro p hp
  rw [List.mem_singleton] at hp
  subst hp
  norm_num [wParticle]

/-! ## Permutation facts about the Fisher-Yates shuffle -/

theorem cons_set_perm {α : Type*} (a : α) :
    ∀ (t : List α) (k : ℕ) (hk : k < t.length), (t[k] :: t.set k a).Perm (a :: t) := by
  intro t
  induction t with
  | nil => intro k hk; simp at hk
  | cons b t' ih =>
    intro k hk
    cases k with
    | zero =>
      simp only [List.getElem_cons_zero, List.set_cons_zero]
      exact List.Perm.swap a b t'
    | succ m =>
      have hm : m < t'.length := by simpa using hk
      simp only [List.getElem_cons_succ, List.set_cons_succ]
      exact (List.Perm.swap b (t'[m]) (t'.set m a)).trans
        (((ih m hm).cons b).trans (List.Perm.swap a b t'))

theorem set_set_swap_perm {α : Type*} :
    ∀ (l : List α) (i j : ℕ) (hi : i < l.length) (hj : j < l.length),
      ((l.set i l[j]).set j l[i]).Perm l := by
  intro l
  induction l with
  | nil => intro i j hi _; simp at hi
  | cons a t ih =>
    intro i j hi hj
    cases i with
    | zero =>
      cases j with
      | zero => simp
      | succ k =>
        have hk : k < t.length := by simpa using hj
        simp only [List.getElem_cons_zero, List.getElem_cons_succ,
          List.set_cons_zero, List.set_cons_succ]
        exact cons_set_perm a t k hk
    | succ m =>
      cases j with
      | zero =>
        have hm : m < t.length := by simpa using hi
        simp only [List.getElem_cons_zero, List.getElem_cons_succ,
          List.set_cons_succ, List.set_cons_zero]
        exact cons_set_perm a t m hm
      | succ k =>
        have hm : m < t.length := by simpa using hi
        have hk : k < t.length := by simpa using hj
        simp only [List.getElem_cons_succ, List.set_cons_succ]
        exact (ih m k hm hk).cons a

theorem listSwap_perm {α : Type*} (l : List α) (i j : ℕ) : (listSwap l i j).Perm l := by
  unfold listSwap
  cases hi : l.get? i with
  | none => exact List.Perm.refl l
  | some a =>
    cases hj : l.get? j with
    | none => exact List.Perm.refl l
    | some b =>
      show ((l.set i b).set j a).Perm l
      obtain ⟨hi', ha⟩ := List.get?_eq_some.mp hi
      obtain ⟨hj', hb⟩ := List.get?_eq_some.mp hj
      have ha' : l[i] = a := by simpa using ha
      have hb' : l[j] = b := by simpa using hb
      rw [← ha', ← hb']
      exact set_set_swap_perm l i j hi' hj'

theorem foldl_listSwap_perm {α : Type*} (f : ℕ → ℕ) :
    ∀ (idxs : List ℕ) (l : List α),
      (idxs.foldl (fun acc i => listSwap acc i (f i)) l).Perm l := by
  intro idxs
  induction idxs with
  | nil => intro l; exact List.Perm.refl l
  | cons i rest ih =>
    intro l
    simp only [List.foldl_cons]
    exact (ih (listSwap l i (f i))).trans (listSwap_perm l i (f i))

theorem shuffleInPlace_perm {α : Type*} (u : ℕ → ℚ) (l : List α) :
    (shuffleInPlace u l).Perm l := by
  unfold shuffleInPlace
  exact foldl_listSwap_perm (fun i => (⌊u i * ((i : ℚ) + 1)⌋).toNat) _ l

/-! ## Rain pool synchronisation lemmas -/

theorem balancedSides_length (su : ℕ → ℚ) (n : ℕ) : (balancedSides su n).length = n := by
  unfold balancedSides
  rw [(shuffleInPlace_perm su _).length_eq]
  simp only [List.length_append, List.length_replicate]
  omega

theorem balancedSides_count_left (su : ℕ → ℚ) (n : ℕ) :
    (balancedSides su n).count Side.left = n / 2 := by
  unfold balancedSides
  rw [(shuffleInPlace_perm su _).count_eq]
  simp [List.count_append, List.count_replicate]

theorem balancedSides_count_right (su : ℕ → ℚ) (n : ℕ) :
    (balancedSides su n).count Side.right = n - n / 2 := by
  unfold balancedSides
  rw [(shuffleInPlace_perm su _).count_eq]
  simp [List.count_append, List.count_replicate]

theorem assignSides_length (W : ℚ) (xu : ℕ → ℚ) :
    ∀ (i : ℕ) (ds : List RainDrop) (ss : List Side),
      (assignSides W xu i ds ss).length = ds.length := by
  intro i ds
  induction ds generalizing i with
  | nil => intro ss; cases ss <;> rfl
  | cons d ds' ih =>
    intro ss
    cases ss with
    | nil => rfl
    | cons s ss' => simp [assignSides, ih]

theorem assignSides_map_side (W : ℚ) (xu : ℕ → ℚ) :
    ∀ (i : ℕ) (ds : List RainDrop) (ss : List Side), ds.length = ss.length →
      (assignSides W xu i ds ss).map RainDrop.side = ss := by
  intro i ds
  induction ds generalizing i with
  | nil =>
    intro ss h
    have hss : ss = [] := by
      cases ss with
      | nil => rfl
      | cons s ss' => simp at h
    subst hss
    rfl
  | cons d ds' ih =>
    intro ss h
    cases ss with
    | nil => simp at h
    | cons s ss' =>
      have h' : ds'.length = ss'.length := by simpa using h
      have hside : (fixDropSide W (xu i) s d).side = s := rfl
      simp [assignSides, List.map_cons, hside, ih (i + 1) ss' h']

theorem resetDrop_keepSide_side (W H piQ : ℚ) (sa : Bool) (d : RainDrop) (u : DropDraws) :
    (resetDrop W H piQ sa true d u).side = d.side := rfl

theorem reseedDrops_map_side (W H piQ : ℚ) (rd : ℕ → DropDraws) :
    ∀ (i : ℕ) (ds : List RainDrop),
      (reseedDrops W H piQ rd i ds).map RainDrop.side = ds.map RainDrop.side := by
  intro i ds
  induction ds generalizing i with
  | nil => rfl
  | cons d ds' ih =>
    simp [reseedDrops, List.map_cons, resetDrop_keepSide_side, ih (i + 1)]

theorem reseedDrops_length (W H piQ : ℚ) (rd : ℕ → DropDraws) (i : ℕ) (ds : List RainDrop) :
    (reseedDrops W H piQ rd i ds).length = ds.length := by
  have h := congrArg List.length (reseedDrops_map_side W H piQ rd i ds)
  simpa using h

theorem syncTargetPool_length (W H piQ : ℚ) (nd : ℕ → DropDraws) (drops : List RainDrop) :
    (syncTargetPool W H piQ nd drops).length = (desiredRainCount W).toNat := by
  unfold syncTargetPool
  simp only [List.length_take, List.length_append, List.length_map, List.length_range]
  omega

theorem syncBalance_length (W : ℚ) (su xu : ℕ → ℚ) (pool1 : List RainDrop) :
    (syncBalance W su xu pool1).length = pool1.length := by
  unfold syncBalance
  split_ifs with h
  · exact assignSides_length W xu 0 pool1 _
  · rfl

theorem syncBalance_map_side (W : ℚ) (su xu : ℕ → ℚ) (pool1 : List RainDrop)
    (h : 0 < pool1.length) :
    (syncBalance W su xu pool1).map RainDrop.side = balancedSides su pool1.length := by
  unfold syncBalance
  rw [if_pos h]
  exact assignSides_map_side W xu 0 pool1 _ (balancedSides_length su pool1.length).symm

theorem syncRainDrops_true_eq (W H piQ : ℚ) (reseed : Bool) (nd : ℕ → DropDraws)
    (su xu : ℕ → ℚ) (rd : ℕ → DropDraws) (drops : List RainDrop) :
    syncRainDrops W H piQ true reseed nd su xu rd drops =
      if reseed then
        reseedDrops W H piQ rd 0 (syncBalance W su xu (syncTargetPool W H piQ nd drops))
      else syncBalance W su xu (syncTargetPool W H piQ nd drops) := by
  simp [syncRainDrops]

theorem desiredRainCount_ge (W : ℚ) : 12 ≤ desiredRainCount W := by
  unfold desiredRainCount clampZ
  exact le_max_left _ _

theorem syncRainDrops_length (W H piQ : ℚ) (reseed : Bool) (nd : ℕ → DropDraws)
    (su xu : ℕ → ℚ) (rd : ℕ → DropDraws) (drops : List RainDrop) :
    (syncRainDrops W H piQ true reseed nd su xu rd drops).length =
      (desiredRainCount W).toNat := by
  rw [syncRainDrops_true_eq]
  split_ifs
  · rw [reseedDrops_length, syncBalance_length, syncTargetPool_length]
  · rw [syncBalance_length, syncTargetPool_length]

theorem syncRainDrops_counts (W H piQ : ℚ) (reseed : Bool) (nd : ℕ → DropDraws)
    (su xu : ℕ → ℚ) (rd : ℕ → DropDraws) (drops : List RainDrop) :
    leftCount (syncRainDrops W H piQ true reseed nd su xu rd drops) =
        (desiredRainCount W).toNat / 2 ∧
      rightCount (syncRainDrops W H piQ true reseed nd su xu rd drops) =
        (desiredRainCount W).toNat - (desiredRainCount W).toNat / 2 := by
  have h12 : (12 : ℤ) ≤ desiredRainCount W := desiredRainCount_ge W
  have htpos : 0 < (desiredRainCount W).toNat := by omega
  have hp1len : (syncTargetPool W H piQ nd drops).length = (desiredRainCount W).toNat :=
    syncTargetPool_length W H piQ nd drops
  have hmap : (syncBalance W su xu (syncTargetPool W H piQ nd drops)).map RainDrop.side =
      balancedSides su (desiredRainCount W).toNat := by
    rw [syncBalance_map_side W su xu _ (by rw [hp1len]; exact htpos), hp1len]
  rw [syncRainDrops_true_eq]
  split_ifs with hr
  · constructor
    · unfold leftCount
      rw [reseedDrops_map_side, hmap, balancedSides_count_left]
    · unfold rightCount
      rw [reseedDrops_map_side, hmap, balancedSides_count_right]
  · constructor
    · unfold leftCount
      rw [hmap, balancedSides_count_left]
    · unfold rightCount
      rw [hmap, balancedSides_count_right]

/-! ## C6: sync reaches the target count with balanced sides -/

/-- C6: after every `syncRainDrops` call with rain enabled, the pool size
equals the target count and the number of drops on the left and right sides
differ by at most 1 (for any viewport, any draws, with or without reseed). -/
theorem syncRainDrops_count_and_balance (W H piQ : ℚ) (reseed : Bool)
    (nd : ℕ → DropDraws) (su xu : ℕ → ℚ) (rd : ℕ → DropDraws) (drops : List RainDrop) :
    (syncRainDrops W H piQ true reseed nd su xu rd drops).length =
        (desiredRainCount W).toNat ∧
      |(leftCount (syncRainDrops W H piQ true reseed nd su xu rd drops) : ℤ) -
        (rightCount (syncRainDrops W H piQ true reseed nd su xu rd drops) : ℤ)| ≤ 1 := by
  obtain ⟨hl, hr⟩ := syncRainDrops_counts W H piQ reseed nd su xu rd drops
  refine ⟨syncRainDrops_length W H piQ reseed nd su xu rd drops, ?_⟩
  rw [hl, hr, abs_le]
  constructor <;> omega

/-! ## C5: the target-count and band-width formulas, and the width-1000 scenario -/

/-- C5: for every viewport width the rain target pool size is
`clamp(floor(w/44), 12, 30)` and the band width is
`clamp(round(0.22 * w), 140, 280)` (the source `clamp` agrees with the
spec's saturating clamp); at width 1000 the target is 22, the band width is
220, and a sync from any state produces 22 drops split 11 left / 11 right. -/
theorem rain_target_and_band_formulas :
    (∀ W : ℚ, desiredRainCount W = specClampZ ⌊W / 44⌋ 12 30) ∧
      (∀ W : ℚ, sideBandWidth W = specClampQ ((jsRound (W * 0.22) : ℤ) : ℚ) 140 280) ∧
      desiredRainCount 1000 = 22 ∧
      sideBandWidth 1000 = 220 ∧
      (∀ (H piQ : ℚ) (nd : ℕ → DropDraws) (su xu : ℕ → ℚ) (rd : ℕ → DropDraws),
        (syncRainDrops 1000 H piQ true false nd su xu rd []).length = 22 ∧
          leftCount (syncRainDrops 1000 H piQ true false nd su xu rd []) = 11 ∧
          rightCount (syncRainDrops 1000 H piQ true false nd su xu rd []) = 11) := by
  have hd1000 : desiredRainCount 1000 = 22 := by
    unfold desiredRainCount clampZ
    norm_num [min_def, max_def]
  have hb1000 : sideBandWidth 1000 = 220 := by
    unfold sideBandWidth clampQ jsRound
    norm_num [min_def, max_def]
  refine ⟨?_, ?_, hd1000, hb1000, ?_⟩
  · intro W
    exact clampZ_eq_spec ⌊W / 44⌋ 12 30 (by norm_num)
  · intro W
    exact clampQ_eq_spec _ 140 280 (by norm_num)
  · intro H piQ nd su xu rd
    have ht : (desiredRainCount 1000).toNat = 22 := by rw [hd1000]; rfl
    obtain ⟨hl, hr⟩ := syncRainDrops_counts 1000 H piQ false nd su xu rd []
    refine ⟨?_, ?_, ?_⟩
    · rw [syncRainDrops_length 1000 H piQ false nd su xu rd [], ht]
    · rw [hl, ht]
    · rw [hr, ht]

/-! ## C7: band confinement of rain drops -/

theorem sideBandWidth_ge (W : ℚ) : 140 ≤ sideBandWidth W := by
  unfold sideBandWidth clampQ
  exact le_max_left _ _

theorem sideBounds_fst_le_snd (W : ℚ) (hW : 20 ≤ W) (s : Side) :
    (sideBounds W s).1 ≤ (sideBounds W s).2 := by
  have hb := sideBandWidth_ge W
  cases s with
  | left =>
    show (10 : ℚ) ≤ max (10 + 1) (sideBandWidth W - 10)
    calc (10 : ℚ) ≤ 10 + 1 := by norm_num
      _ ≤ max (10 + 1) (sideBandWidth W - 10) := le_max_left _ _
  | right =>
    show max 10 (W - sideBandWidth W + 10) ≤ W - 10
    apply max_le
    · linarith
    · linarith

theorem rand01_mem (u lo hi : ℚ) (hu : ValidU u) (h : lo ≤ hi) :
    lo ≤ rand01 u lo hi ∧ rand01 u lo hi ≤ hi := by
  unfold rand01
  constructor
  · nlinarith [hu.1, hu.2]
  · nlinarith [hu.1, hu.2]

theorem resetDrop_keepSide_x_mem (W H piQ : ℚ) (sa : Bool) (d : RainDrop) (u : DropDraws)
    (hW : 20 ≤ W) (hu : ValidDropDraws u) :
    (sideBounds W d.side).1 ≤ (resetDrop W H piQ sa true d u).x ∧
      (resetDrop W H piQ sa true d u).x ≤ (sideBounds W d.side).2 := by
  have hb := sideBounds_fst_le_snd W hW d.side
  have hx : (resetDrop W H piQ sa true d u).x =
      rand01 u.uX (sideBounds W d.side).1 (sideBounds W d.side).2 := rfl
  rw [hx]
  exact rand01_mem u.uX _ _ hu.2.2.2.1 hb

theorem fallDrop_side (dt : ℚ) (d : RainDrop) : (fallDrop dt d).side = d.side := rfl

theorem bounceDrop_side (W : ℚ) (d : RainDrop) : (bounceDrop W d).side = d.side := by
  simp only [bounceDrop]
  split_ifs <;> rfl

theorem bounceDrop_x_mem (W : ℚ) (d : RainDrop)
    (hb : (sideBounds W d.side).1 ≤ (sideBounds W d.side).2) :
    (sideBounds W d.side).1 ≤ (bounceDrop W d).x ∧
      (bounceDrop W d).x ≤ (sideBounds W d.side).2 := by
  simp only [bounceDrop]
  split_ifs with h1 h2 h3
  · exact ⟨hb, le_refl _⟩
  · exact ⟨le_refl _, not_lt.mp h2⟩
  · exact ⟨hb, le_refl _⟩
  · exact ⟨not_lt.mp h1, not_lt.mp h3⟩

theorem advanceDrop_side (W H piQ dt : ℚ) (rd : DropDraws) (d : RainDrop) :
    (advanceDrop W H piQ dt rd d).side = d.side := by
  simp only [advanceDrop]
  split_ifs with h
  · calc (resetDrop W H piQ true true (bounceDrop W (fallDrop dt d)) rd).side
        = (bounceDrop W (fallDrop dt d)).side :=
          resetDrop_keepSide_side W H piQ true (bounceDrop W (fallDrop dt d)) rd
      _ = d.side := by rw [bounceDrop_side, fallDrop_side]
  · rw [bounceDrop_side, fallDrop_side]

theorem advanceDrop_x_mem (W H piQ dt : ℚ) (rd : DropDraws) (d : RainDrop)
    (hW : 20 ≤ W) (hrd : ValidDropDraws rd) :
    (sideBounds W d.side).1 ≤ (advanceDrop W H piQ dt rd d).x ∧
      (advanceDrop W H piQ dt rd d).x ≤ (sideBounds W d.side).2 := by
  have hside3 : (bounceDrop W (fallDrop dt d)).side = d.side := by
    rw [bounceDrop_side, fallDrop_side]
  simp only [advanceDrop]
  split_ifs with h
  · have hm := resetDrop_keepSide_x_mem W H piQ true (bounceDrop W (fallDrop dt d)) rd hW hrd
    rw [hside3] at hm
    exact hm
  · have hm := bounceDrop_x_mem W (fallDrop dt d)
      (by rw [fallDrop_side]; exact sideBounds_fst_le_snd W hW d.side)
    rw [fallDrop_side] at hm
    exact hm

/-- C7: a rain drop's `x` position stays within the band bounds of its
assigned side (which never changes) across arbitrarily many advance frames:
an advance step that would carry `x` past a band edge clamps it to the edge
and flips the horizontal velocity's sign, and a recycled drop is redrawn
inside its band. -/
theorem rainDrop_band_confinement (W H piQ : ℚ) (hW : 20 ≤ W) :
    ∀ (steps : List (ℚ × DropDraws)), (∀ s ∈ steps, ValidDropDraws s.2) →
      ∀ d : RainDrop, (sideBounds W d.side).1 ≤ d.x → d.x ≤ (sideBounds W d.side).2 →
        (runRain W H piQ steps d).side = d.side ∧
          (sideBounds W d.side).1 ≤ (runRain W H piQ steps d).x ∧
          (runRain W H piQ steps d).x ≤ (sideBounds W d.side).2 := by
  intro steps
  induction steps with
  | nil => intro _ d h1 h2; exact ⟨rfl, h1, h2⟩
  | cons s rest ih =>
    intro hs d h1 h2
    have hvs : ValidDropDraws s.2 := hs s (List.mem_cons_self _ _)
    have hside := advanceDrop_side W H piQ s.1 s.2 d
    have hx := advanceDrop_x_mem W H piQ s.1 s.2 d hW hvs
    have hrest : ∀ t ∈ rest, ValidDropDraws t.2 := fun t ht => hs t (List.mem_cons_of_mem _ ht)
    have hrun : runRain W H piQ (s :: rest) d =
        runRain W H piQ rest (advanceDrop W H piQ s.1 s.2 d) := rfl
    obtain ⟨ihs, ihx1, ihx2⟩ := ih hrest (advanceDrop W H piQ s.1 s.2 d)
      (by rw [hside]; exact hx.1) (by rw [hside]; exact hx.2)
    rw [hside] at ihs ihx1 ihx2
    exact ⟨by rw [hrun]; exact ihs, by rw [hrun]; exact ihx1, by rw [hrun]; exact ihx2⟩

theorem rainDrop_band_confinement_witness :
    (20 : ℚ) ≤ 1000 ∧ ValidDropDraws zeroDropDraws ∧
      (sideBounds 1000 wDrop.side).1 ≤ wDrop.x ∧ wDrop.x ≤ (sideBounds 1000 wDrop.side).2 ∧
      ((runRain 1000 600 3 [(1/60, zeroDropDraws)] wDrop).side = wDrop.side ∧
        (sideBounds 1000 wDrop.side).1 ≤ (runRain 1000 600 3 [(1/60, zeroDropDraws)] wDrop).x ∧
        (runRain 1000 600 3 [(1/60, zeroDropDraws)] wDrop).x ≤ (sideBounds 1000 wDrop.side).2) := by
  have h1 : (sideBounds 1000 wDrop.side).1 ≤ wDrop.x := by
    norm_num [sideBounds, wDrop, sideBandWidth, clampQ, jsRound, min_def, max_def]
  have h2 : wDrop.x ≤ (sideBounds 1000 wDrop.side).2 := by
    norm_num [sideBounds, wDrop, sideBandWidth, clampQ, jsRound, min_def, max_def]
  refine ⟨by norm_num, by norm_num [ValidDropDraws, zeroDropDraws, ValidU], h1, h2, ?_⟩
  exact rainDrop_band_confinement 1000 600 3 (by norm_num) [(1/60, zeroDropDraws)]
    (fun s hs => by
      rw [List.mem_singleton] at hs
      subst hs
      norm_num [ValidDropDraws, zeroDropDraws, ValidU])
    wDrop h1 h2

/-! ## C1: the rigged spin target -/

theorem sectorSize_eq : sectorSize = 72 := by
  unfold sectorSize sectorCount
  norm_num

theorem computeRiggedStopAngle_eq (u : ℚ) (hu : ValidU u) :
    computeRiggedStopAngle u = 180 - (u * 43.2 - 21.6) := by
  obtain ⟨h0, h1⟩ := hu
  have hc : sectorCenterAngle prizeIndex = 180 := by
    unfold sectorCenterAngle prizeIndex
    rw [sectorSize_eq]
    norm_num
  simp only [computeRiggedStopAngle]
  rw [hc, sectorSize_eq]
  have e1 : (360 : ℚ) - (180 + (u * (72 * 0.6) - 72 * 0.3)) + 360 =
      540 - (u * 43.2 - 21.6) := by ring
  rw [e1]
  rw [jsMod_in_second_period _ _ (by norm_num) (by nlinarith) (by nlinarith)]
  ring

theorem computeRiggedStopAngle_bounds (u : ℚ) (hu : ValidU u) :
    158.4 < computeRiggedStopAngle u ∧ computeRiggedStopAngle u ≤ 201.6 := by
  rw [computeRiggedStopAngle_eq u hu]
  obtain ⟨h0, h1⟩ := hu
  constructor
  · nlinarith
  · nlinarith

/-- C1: for every spin request from an idle state, whatever the random
draws, the computed target satisfies `targetAngle - startAngle > 0` and
`targetAngle mod 360` lands inside the winning sector's angular range
(sector `prizeIndex = 2` of 5 equal 72° sectors) widened by the jitter bound
`±0.3 * sectorSize`; consequently the wheel stops with the winning sector
under the pointer. -/
theorem spin_target_always_in_winning_sector (s : SpinState) (u1 u2 : ℚ)
    (hs : s.spinning = false) (h1 : ValidU u1) (h2 : ValidU u2) :
    ∃ T : ℚ, (startSpin ⟨u1, u2⟩ s).targetAngle = some T ∧
      0 < T - s.wheelRotation ∧
      (prizeIndex : ℚ) * sectorSize - 0.3 * sectorSize ≤ canonMod T 360 ∧
      canonMod T 360 < ((prizeIndex : ℚ) + 1) * sectorSize + 0.3 * sectorSize ∧
      pointerSector T = (prizeIndex : ℤ) := by
  have h360 : (0 : ℚ) < 360 := by norm_num
  set w := s.wheelRotation with hw
  set fo := computeRiggedStopAngle u1 with hfodef
  set m1 := jsMod w 360 with hm1def
  set cm := jsMod (m1 + 360) 360 with hcmdef
  set dl := jsMod (fo - cm + 360) 360 with hdldef
  set e : ℤ := 7 + ⌊u2 * 3⌋ with hedef
  have hfo_b : 158.4 < fo ∧ fo ≤ 201.6 := computeRiggedStopAngle_bounds u1 h1
  have hm1b : -360 < m1 ∧ m1 < 360 := jsMod_bounds w 360 h360
  have hcm_eq : cm = canonMod (m1 + 360) 360 :=
    jsMod_of_nonneg (m1 + 360) 360 (by linarith [hm1b.1]) h360
  have hcmb : 0 ≤ cm ∧ cm < 360 := by
    rw [hcm_eq]
    exact ⟨canonMod_nonneg _ _ h360, canonMod_lt _ _ h360⟩
  have hargd : 0 ≤ fo - cm + 360 := by linarith [hfo_b.1, hcmb.2]
  have hdl_eq : dl = canonMod (fo - cm + 360) 360 :=
    jsMod_of_nonneg (fo - cm + 360) 360 hargd h360
  have hdlb : 0 ≤ dl ∧ dl < 360 := by
    rw [hdl_eq]
    exact ⟨canonMod_nonneg _ _ h360, canonMod_lt _ _ h360⟩
  have he7 : (7 : ℚ) ≤ (e : ℚ) := by
    have hfl : 0 ≤ ⌊u2 * 3⌋ := Int.floor_nonneg.mpr (by nlinarith [h2.1])
    have he7z : (7 : ℤ) ≤ e := by omega
    exact_mod_cast he7z
  obtain ⟨k1, hk1⟩ := jsMod_sub_int w 360
  obtain ⟨k2, hk2⟩ := jsMod_sub_int (m1 + 360) 360
  obtain ⟨k3, hk3⟩ := jsMod_sub_int (fo - cm + 360) 360
  have hk1' : m1 = w - 360 * (k1 : ℚ) := hk1
  have hk2' : cm = m1 + 360 - 360 * (k2 : ℚ) := hk2
  have hk3' : dl = fo - cm + 360 - 360 * (k3 : ℚ) := hk3
  have hT : w + (e : ℚ) * 360 + dl = fo + ((k1 + k2 + e - k3 : ℤ) : ℚ) * 360 := by
    push_cast
    linarith [hk1', hk2', hk3']
  have hcmod : canonMod (w + (e : ℚ) * 360 + dl) 360 = fo := by
    rw [hT, canonMod_add_int_mul fo 360 _ (by norm_num)]
    exact canonMod_eq_self fo 360 (by linarith [hfo_b.1]) (by linarith [hfo_b.2])
  have hpc : (prizeIndex : ℚ) = 2 := by norm_num [prizeIndex]
  refine ⟨w + (e : ℚ) * 360 + dl, ?_, ?_, ?_, ?_, ?_⟩
  · simp only [startSpin]
    rw [if_neg (by simp [hs])]
  · linarith [he7, hdlb.1]
  · rw [hcmod, sectorSize_eq, hpc]
    linarith [hfo_b.1]
  · rw [hcmod, sectorSize_eq, hpc]
    linarith [hfo_b.2]
  · have hnT : (0 : ℚ) - (w + (e : ℚ) * 360 + dl) =
        -fo + ((-(k1 + k2 + e - k3) : ℤ) : ℚ) * 360 := by
      push_cast
      linarith [hk1', hk2', hk3']
    simp only [pointerSector]
    rw [hnT, canonMod_add_int_mul (-fo) 360 _ (by norm_num),
      canonMod_neg fo 360 (by linarith [hfo_b.1]) (by linarith [hfo_b.2]),
      sectorSize_eq]
    have hpz : ((prizeIndex : ℕ) : ℤ) = 2 := by norm_num [prizeIndex]
    rw [hpz, Int.floor_eq_iff]
    push_cast
    constructor
    · rw [le_div_iff₀ (by norm_num)]
      linarith [hfo_b.2]
    · rw [div_lt_iff₀ (by norm_num)]
      linarith [hfo_b.1]

theorem spin_target_always_in_winning_sector_witness :
    idleSpinState.spinning = false ∧ ValidU 0 ∧
      ∃ T : ℚ, (startSpin ⟨0, 0⟩ idleSpinState).targetAngle = some T ∧
        0 < T - idleSpinState.wheelRotation ∧
        (prizeIndex : ℚ) * sectorSize - 0.3 * sectorSize ≤ canonMod T 360 ∧
        canonMod T 360 < ((prizeIndex : ℚ) + 1) * sectorSize + 0.3 * sectorSize ∧
        pointerSector T = (prizeIndex : ℤ) :=
  ⟨rfl, ⟨le_refl 0, by norm_num⟩,
    spin_target_always_in_winning_sector idleSpinState 0 0 rfl
      ⟨le_refl 0, by norm_num⟩ ⟨le_refl 0, by norm_num⟩⟩

end Valentine
